import Mathlib

/-!
Verification of the audit rule engine and report-aggregation pipeline of the
spider-a11y-checker repository (src/app/checker.tsx), shallowly embedded in
Lean 4.  HTML strings are modelled as `List Char`; the regex-style checks of
`checkA11y` are translated, pattern by pattern, into executable scanning
functions with JavaScript `String.prototype.match` (global, case-insensitive)
semantics: scan left to right, at each position try the pattern, on success
consume the match, otherwise advance one character.
-/

namespace A11y

/-! ### Character classes and case-insensitive matching -/

/-- JavaScript regexp `\s` character class (WhiteSpace ∪ LineTerminator). -/
def isJsSpace (c : Char) : Bool :=
  c.toNat = 0x20 || c.toNat = 0x9 || c.toNat = 0xa || c.toNat = 0xd ||
  c.toNat = 0xb || c.toNat = 0xc || c.toNat = 0xa0 || c.toNat = 0x1680 ||
  (0x2000 ≤ c.toNat && c.toNat ≤ 0x200a) || c.toNat = 0x2028 ||
  c.toNat = 0x2029 || c.toNat = 0x202f || c.toNat = 0x205f ||
  c.toNat = 0x3000 || c.toNat = 0xfeff

/-- Case-insensitive prefix test: the pattern (given in lower case) matches
the start of the input, comparing input characters lower-cased — the `i` flag
of the source regexes over their ASCII-only patterns. -/
def isPrefixCI : List Char → List Char → Bool
  | [], _ => true
  | _ :: _, [] => false
  | p :: ps, c :: cs => (c.toLower == p) && isPrefixCI ps cs

/-- A quote character as matched by the source character class `["\x27]`. -/
def isQuote (c : Char) : Bool := c == '"' || c == '\x27'

/-! ### Generic global-match scanning -/

/-- Count the non-overlapping matches of a pattern, scanning left to right:
`matchAt` returns the length of the match starting at the head (if any); the
second argument is the number of characters of the current match still to be
skipped.  Mirrors `String.prototype.match` with the `g` flag. -/
def countAux (matchAt : List Char → Option Nat) : List Char → Nat → Nat
  | [], _ => 0
  | _ :: rest, k + 1 => countAux matchAt rest k
  | c :: rest, 0 =>
    match matchAt (c :: rest) with
    | some n => 1 + countAux matchAt rest (n - 1)
    | none => countAux matchAt rest 0

/-- `(html.match(re) || []).length` for a pattern given by `matchAt`. -/
def countMatches (matchAt : List Char → Option Nat) (cs : List Char) : Nat :=
  countAux matchAt cs 0

/-- `re.test(html)`: does the pattern match at some position? -/
def existsMatch (test : List Char → Bool) : List Char → Bool
  | [] => false
  | c :: rest => test (c :: rest) || existsMatch test rest

/-- Index of the first `'>'` (the end of a greedy `[^>]*>`). -/
def findGt : List Char → Option Nat
  | [] => none
  | c :: rest => if c == '>' then some 0 else (findGt rest).map (· + 1)

/-! ### The eight rule patterns of `checkA11y` (checker.tsx lines 29–79) -/

/-- `[^>]*lang=` starting here: some occurrence of `lang=` preceded only by
non-`>` characters. -/
def langHere : List Char → Bool
  | [] => false
  | c :: rest => isPrefixCI "lang=".data (c :: rest) || (c != '>' && langHere rest)

/-- `/<html[^>]*lang=/i` matching at this position. -/
def htmlLangHere (cs : List Char) : Bool :=
  isPrefixCI "<html".data cs && langHere (cs.drop 5)

/-- `/<html[^>]*lang=/i.test(html)` (line 29). -/
def htmlLangTest (cs : List Char) : Bool := existsMatch htmlLangHere cs

/-- `[^>]*alt=` starting here (the body of the negative lookahead). -/
def altHere : List Char → Bool
  | [] => false
  | c :: rest => isPrefixCI "alt=".data (c :: rest) || (c != '>' && altHere rest)

/-- One match of `/<img(?![^>]*alt=)[^>]*>/i` starting here, with its length. -/
def imgMatchAt (cs : List Char) : Option Nat :=
  if isPrefixCI "<img".data cs && !altHere (cs.drop 4) then
    match findGt (cs.drop 4) with
    | some k => some (4 + k + 1)
    | none => none
  else none

/-- `(html.match(/<img(?![^>]*alt=)[^>]*>/gi) || []).length` (line 34). -/
def noAltImgs (cs : List Char) : Nat := countMatches imgMatchAt cs

/-- One match of `/<h1[\s>]/i` starting here. -/
def h1MatchAt (cs : List Char) : Option Nat :=
  if isPrefixCI "<h1".data cs then
    match cs.drop 3 with
    | c :: _ => if isJsSpace c || c == '>' then some 4 else none
    | [] => none
  else none

/-- `(html.match(/<h1[\s>]/gi) || []).length` (line 40). -/
def h1Count (cs : List Char) : Nat := countMatches h1MatchAt cs

/-- `(html.match(/<h([1-6])[\s>]/gi) || []).map((m) => parseInt(m[2]))`
(line 49): the heading levels in document order. -/
def headingLevelsAux : List Char → List Nat
  | c :: d :: e :: f :: rest2 =>
    if c == '<' && d.toLower == 'h' && ('1' ≤ e && e ≤ '6') &&
        (isJsSpace f || f == '>') then
      (e.toNat - '0'.toNat) :: headingLevelsAux rest2
    else headingLevelsAux (d :: e :: f :: rest2)
  | _ => []

/-- Heading levels of the page. -/
def headingLevels (cs : List Char) : List Nat := headingLevelsAux cs

/-- The loop of lines 50–56: find the first adjacent pair of heading levels
that skips (difference greater than 1) and stop (`break`). -/
def firstSkip : List Nat → Option (Nat × Nat)
  | a :: b :: rest =>
    if (b : Int) - (a : Int) > 1 then some (a, b) else firstSkip (b :: rest)
  | _ => none

/-- One match of `/<a[^>]*>\s*<\/a>/i` starting here, with its length. -/
def emptyLinkMatchAt (cs : List Char) : Option Nat :=
  if isPrefixCI "<a".data cs then
    match findGt (cs.drop 2) with
    | some k =>
      let after := cs.drop (2 + k + 1)
      let w := (after.takeWhile isJsSpace).length
      if isPrefixCI "</a>".data (after.drop w) then some (2 + k + 1 + w + 4)
      else none
    | none => none
  else none

/-- `(html.match(/<a[^>]*>\s*<\/a>/gi) || []).length` (line 58). -/
def emptyLinks (cs : List Char) : Nat := countMatches emptyLinkMatchAt cs

/-- `["\x27](?:text|email|password|tel|number|search)["\x27]` starting here. -/
def typeValHere (cs : List Char) : Bool :=
  match cs with
  | q :: rest =>
    isQuote q &&
    (["text", "email", "password", "tel", "number", "search"].any fun t =>
      isPrefixCI t.data rest &&
      (match rest.drop t.length with
       | q2 :: _ => isQuote q2
       | [] => false))
  | [] => false

/-- `type=["\x27](…)["\x27]` starting here. -/
def typeAttrHere (cs : List Char) : Bool :=
  isPrefixCI "type=".data cs && typeValHere (cs.drop 5)

/-- One match of `/<input[^>]*type=["\x27](…)["\x27][^>]*>/i` starting here:
the attribute pattern must occur between `<input` and the closing `>`. -/
def inputMatchAt (cs : List Char) : Option Nat :=
  if isPrefixCI "<input".data cs then
    match findGt (cs.drop 6) with
    | some k =>
      if existsMatch typeAttrHere ((cs.drop 6).take k) then some (6 + k + 1)
      else none
    | none => none
  else none

/-- Count of labelable input tags (line 64). -/
def inputsCount (cs : List Char) : Nat := countMatches inputMatchAt cs

/-- One match of `/<label/i` starting here. -/
def labelMatchAt (cs : List Char) : Option Nat :=
  if isPrefixCI "<label".data cs then some 6 else none

/-- `(html.match(/<label/gi) || []).length` (line 65). -/
def labelsCount (cs : List Char) : Nat := countMatches labelMatchAt cs

/-- `/<main[\s>]/i` matching at this position. -/
def mainTagHere (cs : List Char) : Bool :=
  isPrefixCI "<main".data cs &&
  (match cs.drop 5 with
   | c :: _ => isJsSpace c || c == '>'
   | [] => false)

/-- `/<nav[\s>]/i` matching at this position. -/
def navTagHere (cs : List Char) : Bool :=
  isPrefixCI "<nav".data cs &&
  (match cs.drop 4 with
   | c :: _ => isJsSpace c || c == '>'
   | [] => false)

/-- `role=["\x27]<val>["\x27]` matching at this position. -/
def roleHere (val : String) (cs : List Char) : Bool :=
  isPrefixCI "role=".data cs &&
  (match cs.drop 5 with
   | q :: rest =>
     isQuote q && isPrefixCI val.data rest &&
     (match rest.drop val.length with
      | q2 :: _ => isQuote q2
      | [] => false)
   | [] => false)

/-- Line 71: a `<main>` element or a `role="main"` attribute. -/
def hasMain (cs : List Char) : Bool :=
  existsMatch mainTagHere cs || existsMatch (roleHere "main") cs

/-- Line 72: a `<nav>` element or a `role="navigation"` attribute. -/
def hasNav (cs : List Char) : Bool :=
  existsMatch navTagHere cs || existsMatch (roleHere "navigation") cs

/-! ### Data model (checker.tsx lines 12–23) -/

/-- `severity: "error" | "warning" | "info"`. -/
inductive Severity where
  | error
  | warning
  | info
deriving DecidableEq

/-- The string value of a severity. -/
def sevString : Severity → String
  | .error => "error"
  | .warning => "warning"
  | .info => "info"

/-- `interface A11yIssue`. -/
structure A11yIssue where
  rule : String
  severity : Severity
  message : String
  suggestion : String
deriving DecidableEq

/-- `interface PageAudit`. -/
structure PageAudit where
  url : String
  score : Int
  issues : List A11yIssue
deriving DecidableEq

/-! ### Decimal numerals (JS number-to-string used in messages and exports) -/

/-- Decimal digits of `n` (most significant first), with fuel. -/
def natDigitsAux : Nat → Nat → List Char
  | _, 0 => []
  | 0, _ => []
  | fuel + 1, n + 1 =>
    natDigitsAux fuel ((n + 1) / 10) ++ [Char.ofNat ('0'.toNat + (n + 1) % 10)]

/-- `String(n)` for a natural number. -/
def natToString (n : Nat) : String :=
  if n = 0 then "0" else ⟨natDigitsAux n n⟩

/-- `String(n)` for an integer. -/
def intToString (n : Int) : String :=
  if n < 0 then "-" ++ natToString n.natAbs else natToString n.natAbs

/-! ### The rule evaluator `checkA11y` (checker.tsx lines 25–83) -/

def langIssue : A11yIssue :=
  ⟨"html-lang", .error, "Missing lang attribute on <html>",
    "Add lang=\"en\" to the <html> tag"⟩

def imgAltIssue (n : Nat) : A11yIssue :=
  ⟨"img-alt", .error, natToString n ++ " image(s) missing alt attribute",
    "Add descriptive alt text to all images"⟩

def manyH1Issue (n : Nat) : A11yIssue :=
  ⟨"single-h1", .warning, natToString n ++ " H1 tags found",
    "Use only one H1 per page"⟩

def noH1Issue : A11yIssue :=
  ⟨"single-h1", .warning, "No H1 tag found", "Add a single H1 heading"⟩

def headingIssue (a b : Nat) : A11yIssue :=
  ⟨"heading-order", .warning,
    "Heading level skipped: H" ++ natToString a ++ " to H" ++ natToString b,
    "Use sequential heading levels"⟩

def emptyLinksIssue (n : Nat) : A11yIssue :=
  ⟨"empty-links", .error, natToString n ++ " empty link(s) found",
    "Add text content or aria-label to links"⟩

def formLabelsIssue (d : Nat) : A11yIssue :=
  ⟨"form-labels", .error, natToString d ++ " input(s) potentially missing labels",
    "Associate a <label> with each form input"⟩

def mainIssue : A11yIssue :=
  ⟨"landmark-main", .info, "No <main> landmark found",
    "Wrap main content in a <main> element"⟩

def navIssue : A11yIssue :=
  ⟨"landmark-nav", .info, "No <nav> landmark found",
    "Wrap navigation in a <nav> element"⟩

/-- The fixed rule identifiers, in the evaluation order of the §4.1 table. -/
def ruleOrder : List String :=
  ["html-lang", "img-alt", "single-h1", "heading-order", "empty-links", "form-labels",
    "landmark-main", "landmark-nav"]

/-- The issues pushed by `checkA11y`, in rule-evaluation order: the pushes of
the source function commute into one concatenation because each check's
condition is independent of the accumulator. -/
def issuesOf (cs : List Char) : List A11yIssue :=
  (if htmlLangTest cs then [] else [langIssue]) ++
  (if noAltImgs cs > 0 then [imgAltIssue (noAltImgs cs)] else []) ++
  (if h1Count cs > 1 then [manyH1Issue (h1Count cs)]
   else if h1Count cs = 0 then [noH1Issue] else []) ++
  (match firstSkip (headingLevels cs) with
   | some (a, b) => [headingIssue a b]
   | none => []) ++
  (if emptyLinks cs > 0 then [emptyLinksIssue (emptyLinks cs)] else []) ++
  (if inputsCount cs > labelsCount cs then
    [formLabelsIssue (inputsCount cs - labelsCount cs)] else []) ++
  (if hasMain cs then [] else [mainIssue]) ++
  (if hasNav cs then [] else [navIssue])

/-- The running score before the final clamp: `100` minus the penalty of each
triggered check (`score -= …` of each branch). -/
def rawScore (cs : List Char) : Int :=
  100 - (if htmlLangTest cs then 0 else 10)
      - (if noAltImgs cs > 0 then min 20 ((noAltImgs cs : Int) * 5) else 0)
      - (if h1Count cs > 1 then 5 else if h1Count cs = 0 then 5 else 0)
      - (if (firstSkip (headingLevels cs)).isSome then 5 else 0)
      - (if emptyLinks cs > 0 then min 10 ((emptyLinks cs : Int) * 3) else 0)
      - (if inputsCount cs > labelsCount cs then
          min 15 (((inputsCount cs : Int) - (labelsCount cs : Int)) * 5) else 0)
      - (if hasMain cs then 0 else 3)
      - (if hasNav cs then 0 else 2)

/-- `function checkA11y(url, html): PageAudit` (lines 25–83).  The returned
score is `Math.max(0, score)`. -/
def checkA11y (url html : String) : PageAudit :=
  ⟨url, max 0 (rawScore html.data), issuesOf html.data⟩

/-! ### Input pipeline (checker.tsx line 214) -/

/-- One record of the crawl response: both fields are optional. -/
structure CrawlRecord where
  url : Option String
  content : Option String
deriving DecidableEq

/-- JavaScript truthiness of an optional string field: `undefined`, `null`
and the empty string are falsy. -/
def truthy : Option String → Bool
  | none => false
  | some s => s ≠ ""

/-- `(data || []).filter((p) => p?.url && p?.content).map((p) =>
checkA11y(p.url, p.content))` (line 214). -/
def audits (data : Option (List CrawlRecord)) : List PageAudit :=
  ((data.getD []).filter fun p => truthy p.url && truthy p.content).map
    fun p => checkA11y (p.url.getD "") (p.content.getD "")

/-! ### Aggregator (checker.tsx lines 215, 228–234) -/

/-- `audits.length ? Math.round(audits.reduce((s, a) => s + a.score, 0) /
audits.length) : 0` (line 215), with the JS float division modelled as exact
rational division; `Math.round x = ⌊x + 1/2⌋` is Mathlib's `round`. -/
def avgScore (l : List PageAudit) : Int :=
  if l.length = 0 then 0
  else round ((((l.map fun a => a.score).sum : Int) : ℚ) / (l.length : ℚ))

/-- `type SortKey = "score" | "url" | "issues"`. -/
inductive SortKey where
  | score
  | url
  | issues
deriving DecidableEq

/-- `type SortDir = "asc" | "desc"`. -/
inductive SortDir where
  | asc
  | desc
deriving DecidableEq

/-- `a.url.localeCompare(b.url)` modelled as lexicographic string
comparison (the spec fixes the url sort to be lexicographic). -/
def lexCompare (a b : String) : Int :=
  if a < b then -1 else if b < a then 1 else 0

/-- The comparator value `cmp` of lines 229–232. -/
def cmpKey : SortKey → PageAudit → PageAudit → Int
  | .score, a, b => a.score - b.score
  | .url, a, b => lexCompare a.url b.url
  | .issues, a, b => (a.issues.length : Int) - (b.issues.length : Int)

/-- `return sortDir === "asc" ? cmp : -cmp` (line 233). -/
def jsCmp (key : SortKey) (dir : SortDir) (a b : PageAudit) : Int :=
  if dir = .asc then cmpKey key a b else -cmpKey key a b

/-- `[...filteredAudits].sort(comparator)` (line 228): JavaScript
`Array.prototype.sort` is required to be stable, so it is modelled by the
stable `List.insertionSort` ordered by the comparator being non-positive. -/
def sortedAudits (key : SortKey) (dir : SortDir) (l : List PageAudit) :
    List PageAudit :=
  List.insertionSort (fun a b => jsCmp key dir a b ≤ 0) l

/-! ### Exporter: CSV (checker.tsx lines 123–135) -/

/-- `c.replace(/"/g, \x27""\x27)`: double each internal double quote. -/
def csvEscape (s : String) : String :=
  ⟨s.data.flatMap fun c => if c = '"' then ['"', '"'] else [c]⟩

/-- One CSV cell: the escaped content wrapped in double quotes. -/
def csvField (s : String) : String := "\"" ++ csvEscape s ++ "\""

/-- The rows pushed by the CSV branch (lines 124–133): the header, then per
audit either one `"No issues"` row or one row per issue. -/
def csvRows (l : List PageAudit) : List (List String) :=
  ["URL", "Score", "Rule", "Severity", "Message", "Suggestion"] ::
  l.flatMap fun a =>
    if a.issues.isEmpty then
      [[a.url, intToString a.score, "", "", "No issues", ""]]
    else
      a.issues.map fun i =>
        [a.url, intToString a.score, i.rule, sevString i.severity, i.message,
          i.suggestion]

/-- `rows.map((r) => r.map((c) => …).join(",")).join("\n")` (line 134). -/
def csvContent (l : List PageAudit) : String :=
  String.intercalate "\n"
    ((csvRows l).map fun r => String.intercalate "," (r.map csvField))

/-! ### Exporter: JSON (checker.tsx line 122)

`JSON.stringify(audits, null, 2)` is modelled character by character,
including the two-space pretty-printing. -/

/-- Lower-case hexadecimal digit. -/
def hexDigitChar (n : Nat) : Char :=
  if n < 10 then Char.ofNat ('0'.toNat + n) else Char.ofNat ('a'.toNat + n - 10)

/-- The JSON escape of one character (ECMA-262 QuoteJSONString). -/
def escapeJsonChar (c : Char) : List Char :=
  if c = '"' then ['\\', '"']
  else if c = '\\' then ['\\', '\\']
  else if c = Char.ofNat 8 then ['\\', 'b']
  else if c = Char.ofNat 9 then ['\\', 't']
  else if c = Char.ofNat 10 then ['\\', 'n']
  else if c = Char.ofNat 12 then ['\\', 'f']
  else if c = Char.ofNat 13 then ['\\', 'r']
  else if c.toNat < 32 then
    ['\\', 'u', '0', '0', hexDigitChar (c.toNat / 16), hexDigitChar (c.toNat % 16)]
  else [c]

/-- A JSON string literal. -/
def quoteJson (s : String) : List Char :=
  '"' :: s.data.flatMap escapeJsonChar ++ ['"']

/-- One serialized issue object, at the nesting depth it has inside
`JSON.stringify(audits, null, 2)` (item of the `issues` array: indent 6,
fields at indent 8). -/
def emitIssue (i : A11yIssue) : List Char :=
  "      \x7b\n        \"rule\": ".data ++ quoteJson i.rule ++
  ",\n        \"severity\": ".data ++ quoteJson (sevString i.severity) ++
  ",\n        \"message\": ".data ++ quoteJson i.message ++
  ",\n        \"suggestion\": ".data ++ quoteJson i.suggestion ++
  "\n      \x7d".data

/-- The comma-and-newline separated issue items. -/
def emitIssuesItems : List A11yIssue → List Char
  | [] => []
  | [i] => emitIssue i
  | i :: rest => emitIssue i ++ ",\n".data ++ emitIssuesItems rest

/-- The value of the `issues` field (array at indent 4). -/
def emitIssues (l : List A11yIssue) : List Char :=
  if l.isEmpty then "[]".data
  else "[\n".data ++ emitIssuesItems l ++ "\n    ]".data

/-- One serialized page object (item of the top array: indent 2, fields at
indent 4). -/
def emitPage (a : PageAudit) : List Char :=
  "  \x7b\n    \"url\": ".data ++ quoteJson a.url ++
  ",\n    \"score\": ".data ++ (intToString a.score).data ++
  ",\n    \"issues\": ".data ++ emitIssues a.issues ++
  "\n  \x7d".data

/-- The comma-and-newline separated page items. -/
def emitPagesItems : List PageAudit → List Char
  | [] => []
  | [a] => emitPage a
  | a :: rest => emitPage a ++ ",\n".data ++ emitPagesItems rest

/-- `JSON.stringify(audits, null, 2)` (line 122). -/
def jsonExport (l : List PageAudit) : String :=
  if l.isEmpty then "[]" else ⟨"[\n".data ++ emitPagesItems l ++ "\n]".data⟩

/-! ### Exporter: Markdown (checker.tsx lines 137–152) -/

/-- `i.severity.toUpperCase()`. -/
def sevUpper : Severity → String
  | .error => "ERROR"
  | .warning => "WARNING"
  | .info => "INFO"

/-- One markdown table row of an issue (line 147). -/
def mdIssueRow (i : A11yIssue) : String :=
  "| " ++ sevUpper i.severity ++ " | " ++ i.rule ++ " | " ++ i.message ++
  " | " ++ i.suggestion ++ " |\n"

/-- One page section of the markdown report (lines 140–151). -/
def mdPage (a : PageAudit) : String :=
  "## " ++ a.url ++ "\n\n**Score:** " ++ intToString a.score ++ "/100\n\n" ++
  (if a.issues.isEmpty then "No issues found.\n\n"
   else
     "| Severity | Rule | Message | Suggestion |\n|----------|------|---------|------------|\n"
     ++ String.join (a.issues.map mdIssueRow) ++ "\n")

/-- The markdown report (lines 137–151); `ts` is the externally supplied
date string. -/
def mdExport (ts : String) (l : List PageAudit) : String :=
  "# Accessibility Audit Report\n\n**Date:** " ++ ts ++
  "\n**Pages Audited:** " ++ natToString l.length ++ "\n\n" ++
  "**Average Score:** " ++ intToString (avgScore l) ++ "/100\n\n---\n\n" ++
  String.join (l.map mdPage)

/-- `type ExportFormat = "json" | "csv" | "markdown"`. -/
inductive ExportFormat where
  | json
  | csv
  | markdown
deriving DecidableEq

/-- The content string produced by `exportAudits(audits, format)`
(lines 119–154), with the download side effect stripped and the current
date passed in. -/
def exportAudits (l : List PageAudit) (format : ExportFormat) (ts : String) :
    String :=
  match format with
  | .json => jsonExport l
  | .csv => csvContent l
  | .markdown => mdExport ts l

/-! ### Parsing the structured export back

Modelled from the spec: the spec's round-trip property ("exporting to
structured format and parsing it back reproduces the original `PageAudit[]`
exactly") relies on `JSON.parse`, which is not part of this repository's
sources.  It is modelled here as a whitespace-insensitive recursive-descent
parser for the shape emitted by the structured export (arrays of page
objects with fields `url`, `score`, `issues` in serialization order). -/

/-- Skip JSON insignificant whitespace. -/
def skipWs : List Char → List Char
  | [] => []
  | c :: rest =>
    if c == ' ' || c == '\n' || c == '\t' || c == '\r' then skipWs rest
    else c :: rest

/-- Consume an exact literal. -/
def dropLit : List Char → List Char → Option (List Char)
  | [], cs => some cs
  | _ :: _, [] => none
  | p :: ps, c :: cs => if c = p then dropLit ps cs else none

/-- Skip whitespace, then consume the expected character. -/
def expectC (c : Char) (cs : List Char) : Option (List Char) :=
  match skipWs cs with
  | d :: rest => if d = c then some rest else none
  | [] => none

/-- Value of a hexadecimal digit, by code point: decimal digits occupy
48–57, the lower-case letters a–f occupy 97–102, the upper-case A–F 65–70. -/
def hexVal (c : Char) : Option Nat :=
  let n := c.toNat
  if 48 ≤ n ∧ n ≤ 57 then some (n - 48)
  else if 97 ≤ n ∧ n ≤ 102 then some (n - 87)
  else if 65 ≤ n ∧ n ≤ 70 then some (n - 55)
  else none

/-- Parse the body of a JSON string literal up to and including the closing
quote, decoding the escape sequences. -/
def parseStrBody : List Char → Option (List Char × List Char)
  | [] => none
  | c :: rest =>
    if c = '"' then some ([], rest)
    else if c = '\\' then
      match rest with
      | [] => none
      | e :: rest2 =>
        if e = '"' then (parseStrBody rest2).map fun p => ('"' :: p.1, p.2)
        else if e = '\\' then (parseStrBody rest2).map fun p => ('\\' :: p.1, p.2)
        else if e = '/' then (parseStrBody rest2).map fun p => ('/' :: p.1, p.2)
        else if e = 'b' then (parseStrBody rest2).map fun p => (Char.ofNat 8 :: p.1, p.2)
        else if e = 't' then (parseStrBody rest2).map fun p => (Char.ofNat 9 :: p.1, p.2)
        else if e = 'n' then (parseStrBody rest2).map fun p => (Char.ofNat 10 :: p.1, p.2)
        else if e = 'f' then (parseStrBody rest2).map fun p => (Char.ofNat 12 :: p.1, p.2)
        else if e = 'r' then (parseStrBody rest2).map fun p => (Char.ofNat 13 :: p.1, p.2)
        else if e = 'u' then
          match rest2 with
          | h1 :: h2 :: h3 :: h4 :: rest3 =>
            match hexVal h1, hexVal h2, hexVal h3, hexVal h4 with
            | some a, some b, some c2, some d =>
              (parseStrBody rest3).map fun p =>
                (Char.ofNat (((a * 16 + b) * 16 + c2) * 16 + d) :: p.1, p.2)
            | _, _, _, _ => none
          | _ => none
        else none
    else if c.toNat < 32 then none
    else (parseStrBody rest).map fun p => (c :: p.1, p.2)

/-- Parse a JSON string literal (expects the opening quote at the head). -/
def parseJString : List Char → Option (String × List Char)
  | c :: rest => if c = '"' then (parseStrBody rest).map fun p => (⟨p.1⟩, p.2) else none
  | [] => none

/-- Is this a decimal digit? -/
def isDigitB (c : Char) : Bool := '0' ≤ c && c ≤ '9'

/-- Consume a run of decimal digits, accumulating their value. -/
def parseNatAux : List Char → Nat → Nat × List Char
  | [], acc => (acc, [])
  | c :: rest, acc =>
    if isDigitB c then parseNatAux rest (acc * 10 + (c.toNat - '0'.toNat))
    else (acc, c :: rest)

/-- Parse an integer numeral (optional minus sign, then digits). -/
def parseJInt : List Char → Option (Int × List Char)
  | [] => none
  | c :: rest =>
    if c = '-' then
      match rest with
      | d :: rest2 =>
        if isDigitB d then
          let p := parseNatAux (d :: rest2) 0
          some (-(p.1 : Int), p.2)
        else none
      | [] => none
    else if isDigitB c then
      let p := parseNatAux (c :: rest) 0
      some ((p.1 : Int), p.2)
    else none

/-- Recover a severity from its serialized string. -/
def sevOfString (s : String) : Option Severity :=
  if s = "error" then some .error
  else if s = "warning" then some .warning
  else if s = "info" then some .info
  else none

/-- Skip whitespace, then consume a quoted field name and its colon. -/
def parseFieldName (name : String) (cs : List Char) : Option (List Char) := do
  let cs1 ← dropLit ('"' :: name.data ++ ['"']) (skipWs cs)
  let cs2 ← expectC ':' cs1
  pure (skipWs cs2)

/-- Parse one issue object. -/
def parseIssue (cs : List Char) : Option (A11yIssue × List Char) := do
  let cs ← expectC '\x7b' cs
  let cs ← parseFieldName "rule" cs
  let (rule, cs) ← parseJString cs
  let cs ← expectC ',' cs
  let cs ← parseFieldName "severity" cs
  let (sevS, cs) ← parseJString cs
  let sev ← sevOfString sevS
  let cs ← expectC ',' cs
  let cs ← parseFieldName "message" cs
  let (msg, cs) ← parseJString cs
  let cs ← expectC ',' cs
  let cs ← parseFieldName "suggestion" cs
  let (sug, cs) ← parseJString cs
  let cs ← expectC '\x7d' cs
  pure (⟨rule, sev, msg, sug⟩, cs)

/-- Parse the comma-separated items of a non-empty issue array, up to and
including the closing bracket.  The fuel bounds the number of items. -/
def parseIssuesTail : Nat → List Char → Option (List A11yIssue × List Char)
  | 0, _ => none
  | fuel + 1, cs => do
    let (i, cs) ← parseIssue cs
    match skipWs cs with
    | ',' :: rest => (parseIssuesTail fuel rest).map fun p => (i :: p.1, p.2)
    | ']' :: rest => some ([i], rest)
    | _ => none

/-- Parse an issue array. -/
def parseIssuesArr (fuel : Nat) (cs : List Char) :
    Option (List A11yIssue × List Char) := do
  let cs ← expectC '[' cs
  match skipWs cs with
  | ']' :: rest => some ([], rest)
  | _ => parseIssuesTail fuel cs

/-- Parse one page object. -/
def parsePage (fuel : Nat) (cs : List Char) : Option (PageAudit × List Char) := do
  let cs ← expectC '\x7b' cs
  let cs ← parseFieldName "url" cs
  let (url, cs) ← parseJString cs
  let cs ← expectC ',' cs
  let cs ← parseFieldName "score" cs
  let (score, cs) ← parseJInt cs
  let cs ← expectC ',' cs
  let cs ← parseFieldName "issues" cs
  let (issues, cs) ← parseIssuesArr fuel cs
  let cs ← expectC '\x7d' cs
  pure (⟨url, score, issues⟩, cs)

/-- Parse the comma-separated items of a non-empty page array, up to and
including the closing bracket. -/
def parsePagesTail : Nat → List Char → Option (List PageAudit × List Char)
  | 0, _ => none
  | fuel + 1, cs => do
    let (a, cs) ← parsePage (fuel + 1) cs
    match skipWs cs with
    | ',' :: rest => (parsePagesTail fuel rest).map fun p => (a :: p.1, p.2)
    | ']' :: rest => some ([a], rest)
    | _ => none

/-- Parse a serialized audit collection; fails on trailing garbage. -/
def parseAudits (s : String) : Option (List PageAudit) :=
  let cs := s.data
  let fuel := cs.length + 1
  let r : Option (List PageAudit × List Char) := do
    let cs1 ← expectC '[' cs
    match skipWs cs1 with
    | ']' :: rest => some ([], rest)
    | _ => parsePagesTail fuel cs1
  match r with
  | some (l, rest) => if (skipWs rest).isEmpty then some l else none
  | none => none

/-! ## Theorems -/

/-- Helper: each penalty term of `rawScore` is bounded by its cap, so the
running score stays within `[30, 100]`. -/
theorem rawScore_bounds (cs : List Char) : 30 ≤ rawScore cs ∧ rawScore cs ≤ 100 := by
  have b1 : (0 : Int) ≤ (if htmlLangTest cs then 0 else 10) ∧
      (if htmlLangTest cs then (0 : Int) else 10) ≤ 10 := by split <;> norm_num
  have b2 : (0 : Int) ≤ (if noAltImgs cs > 0 then min 20 ((noAltImgs cs : Int) * 5) else 0) ∧
      (if noAltImgs cs > 0 then min 20 ((noAltImgs cs : Int) * 5) else 0) ≤ 20 := by
    split
    · exact ⟨le_min (by norm_num) (by positivity), min_le_left _ _⟩
    · norm_num
  have b3 : (0 : Int) ≤ (if h1Count cs > 1 then 5 else if h1Count cs = 0 then 5 else 0) ∧
      (if h1Count cs > 1 then (5 : Int) else if h1Count cs = 0 then 5 else 0) ≤ 5 := by
    split
    · norm_num
    · split <;> norm_num
  have b4 : (0 : Int) ≤ (if (firstSkip (headingLevels cs)).isSome then 5 else 0) ∧
      (if (firstSkip (headingLevels cs)).isSome then (5 : Int) else 0) ≤ 5 := by
    split <;> norm_num
  have b5 : (0 : Int) ≤ (if emptyLinks cs > 0 then min 10 ((emptyLinks cs : Int) * 3) else 0) ∧
      (if emptyLinks cs > 0 then min 10 ((emptyLinks cs : Int) * 3) else 0) ≤ 10 := by
    split
    · exact ⟨le_min (by norm_num) (by positivity), min_le_left _ _⟩
    · norm_num
  have b6 : (0 : Int) ≤ (if inputsCount cs > labelsCount cs then
        min 15 (((inputsCount cs : Int) - (labelsCount cs : Int)) * 5) else 0) ∧
      (if inputsCount cs > labelsCount cs then
        min 15 (((inputsCount cs : Int) - (labelsCount cs : Int)) * 5) else 0) ≤ 15 := by
    split
    · rename_i h
      refine ⟨le_min (by norm_num) ?_, min_le_left _ _⟩
      have : (labelsCount cs : Int) ≤ (inputsCount cs : Int) := by exact_mod_cast le_of_lt h
      nlinarith
    · norm_num
  have b7 : (0 : Int) ≤ (if hasMain cs then 0 else 3) ∧
      (if hasMain cs then (0 : Int) else 3) ≤ 3 := by split <;> norm_num
  have b8 : (0 : Int) ≤ (if hasNav cs then 0 else 2) ∧
      (if hasNav cs then (0 : Int) else 2) ≤ 2 := by split <;> norm_num
  unfold rawScore
  constructor
  · linarith [b1.1, b1.2, b2.1, b2.2, b3.1, b3.2, b4.1, b4.2, b5.1, b5.2, b6.1, b6.2,
      b7.1, b7.2, b8.1, b8.2]
  · linarith [b1.1, b2.1, b3.1, b4.1, b5.1, b6.1, b7.1, b8.1]

/-- C1: for every url string and every html string, the score of the audit
returned by `checkA11y` is an integer in `[0, 100]`: penalty accumulation
never drives it negative and no check sequence raises it above 100. -/
theorem checkA11y_score_in_unit_range (url html : String) :
    0 ≤ (checkA11y url html).score ∧ (checkA11y url html).score ≤ 100 := by
  have h := rawScore_bounds html.data
  show 0 ≤ max 0 (rawScore html.data) ∧ max 0 (rawScore html.data) ≤ 100
  exact ⟨le_max_left _ _, max_le (by norm_num) h.2⟩

/-- C10: for every url and html the score is at least 30 (the penalty caps
sum to at most 70), and the final clamp `Math.max(0, score)` is never the
active branch: the clamped score coincides with the unclamped one. -/
theorem checkA11y_score_ge_30 (url html : String) :
    30 ≤ (checkA11y url html).score ∧ (checkA11y url html).score = rawScore html.data := by
  have h := rawScore_bounds html.data
  have hmax : max 0 (rawScore html.data) = rawScore html.data :=
    max_eq_right (by linarith [h.1])
  constructor
  · show 30 ≤ max 0 (rawScore html.data)
    rw [hmax]
    exact h.1
  · exact hmax

/-- C3: the single page with html `<html><body><img src='x'></body></html>`
produces exactly the issues html-lang (error), img-alt (error), single-h1
(warning), landmark-main (info) and landmark-nav (info), in that order, with
score 100 − 10 − 5 − 5 − 3 − 2 = 75. -/
theorem checkA11y_img_scenario :
    (checkA11y "https://example.com"
      "<html><body><img src=\x27x\x27></body></html>").score = 75 ∧
    ((checkA11y "https://example.com"
        "<html><body><img src=\x27x\x27></body></html>").issues.map
      fun i => (i.rule, i.severity)) =
      [("html-lang", Severity.error), ("img-alt", Severity.error),
        ("single-h1", Severity.warning), ("landmark-main", Severity.info),
        ("landmark-nav", Severity.info)] := by decide

/-- Helper: the rule identifiers of the produced issues form a sublist of the
fixed rule table. -/
theorem issuesOf_rules_sublist (cs : List Char) :
    List.Sublist ((issuesOf cs).map A11yIssue.rule) ruleOrder := by
  unfold issuesOf
  rw [show ruleOrder = ["html-lang"] ++ (["img-alt"] ++ (["single-h1"] ++ (["heading-order"] ++
    (["empty-links"] ++ (["form-labels"] ++ (["landmark-main"] ++ ["landmark-nav"]))))))
    from rfl]
  simp only [List.map_append, List.append_assoc]
  refine List.Sublist.append ?_ (List.Sublist.append ?_ (List.Sublist.append ?_
    (List.Sublist.append ?_ (List.Sublist.append ?_ (List.Sublist.append ?_
    (List.Sublist.append ?_ ?_))))))
  · split <;> simp [langIssue]
  · split <;> simp [imgAltIssue]
  · split
    · simp [manyH1Issue]
    · split <;> simp [noH1Issue]
  · split <;> simp [headingIssue]
  · split <;> simp [emptyLinksIssue]
  · split <;> simp [formLabelsIssue]
  · split <;> simp [mainIssue]
  · split <;> simp [navIssue]

/-- C5: for every url and html, the issue list of the audit contains at most
one issue per rule, every rule comes from the fixed eight-rule table, and the
issues appear in exactly the table (rule-evaluation) order: the mapped rule
list is a duplicate-free sublist of `ruleOrder`. -/
theorem checkA11y_rules_closed_ordered_unique (url html : String) :
    List.Sublist ((checkA11y url html).issues.map A11yIssue.rule) ruleOrder ∧
    ((checkA11y url html).issues.map A11yIssue.rule).Nodup := by
  have hs : List.Sublist ((checkA11y url html).issues.map A11yIssue.rule) ruleOrder :=
    issuesOf_rules_sublist html.data
  have hnd : ruleOrder.Nodup := by decide
  exact ⟨hs, hnd.sublist hs⟩

/-- Helper: the scanning loop reports nothing iff no adjacent pair of heading
levels skips a level. -/
theorem firstSkip_none_iff (l : List Nat) :
    firstSkip l = none ↔ ∀ p ∈ l.zip l.tail, (p.2 : Int) - (p.1 : Int) ≤ 1 := by
  induction l with
  | nil => simp [firstSkip]
  | cons a t ih =>
    cases t with
    | nil => simp [firstSkip]
    | cons b u =>
      rw [firstSkip]
      split
      · rename_i h
        simp only [List.zip_cons_cons, List.tail_cons]
        constructor
        · intro hc; exact absurd hc (by simp)
        · intro hall
          have := hall (a, b) (by simp)
          omega
      · rename_i h
        rw [ih]
        simp only [List.tail_cons, List.zip_cons_cons]
        constructor
        · intro hall p hp
          rcases List.mem_cons.mp hp with rfl | hp2
          · simpa using by omega
          · exact hall p hp2
        · intro hall p hp
          exact hall p (List.mem_cons_of_mem _ hp)

/-- Helper: a reported pair is the first level-skipping adjacent pair, and
everything before it is skip-free. -/
theorem firstSkip_some (l : List Nat) (a b : Nat) (h : firstSkip l = some (a, b)) :
    (a : Int) + 1 < b ∧
    ∃ pre suf, l.zip l.tail = pre ++ (a, b) :: suf ∧
      ∀ p ∈ pre, (p.2 : Int) - (p.1 : Int) ≤ 1 := by
  induction l with
  | nil => simp [firstSkip] at h
  | cons x t ih =>
    cases t with
    | nil => simp [firstSkip] at h
    | cons y u =>
      rw [firstSkip] at h
      split at h
      · rename_i hgt
        simp only [Option.some.injEq, Prod.mk.injEq] at h
        obtain ⟨rfl, rfl⟩ := h
        exact ⟨by omega, [], (y :: u).zip u, by simp, by simp⟩
      · rename_i hle
        obtain ⟨h1, pre, suf, heq, hpre⟩ := ih h
        refine ⟨h1, (x, y) :: pre, suf, ?_, ?_⟩
        · simp only [List.zip_cons_cons, List.tail_cons] at heq ⊢
          rw [heq]
          simp
        · intro p hp
          rcases List.mem_cons.mp hp with rfl | hp2
          · simp; omega
          · exact hpre p hp2

/-- Helper: the heading-order issues among the produced issues are exactly
the single issue of the first skipping pair, when one exists. -/
theorem issuesOf_heading_filter (cs : List Char) :
    (issuesOf cs).filter (fun i => i.rule == "heading-order") =
      (match firstSkip (headingLevels cs) with
      | some (a, b) => [headingIssue a b]
      | none => []) := by
  unfold issuesOf
  simp only [List.filter_append]
  have e1 : (if htmlLangTest cs then ([] : List A11yIssue) else [langIssue]).filter
      (fun i => i.rule == "heading-order") = [] := by split <;> simp [langIssue]
  have e2 : (if noAltImgs cs > 0 then [imgAltIssue (noAltImgs cs)] else []).filter
      (fun i => i.rule == "heading-order") = [] := by split <;> simp [imgAltIssue]
  have e3 : (if h1Count cs > 1 then [manyH1Issue (h1Count cs)]
      else if h1Count cs = 0 then [noH1Issue] else []).filter
      (fun i => i.rule == "heading-order") = [] := by
    split
    · simp [manyH1Issue]
    · split <;> simp [noH1Issue]
  have e5 : (if emptyLinks cs > 0 then [emptyLinksIssue (emptyLinks cs)] else []).filter
      (fun i => i.rule == "heading-order") = [] := by split <;> simp [emptyLinksIssue]
  have e6 : (if inputsCount cs > labelsCount cs then
      [formLabelsIssue (inputsCount cs - labelsCount cs)] else []).filter
      (fun i => i.rule == "heading-order") = [] := by split <;> simp [formLabelsIssue]
  have e7 : (if hasMain cs then ([] : List A11yIssue) else [mainIssue]).filter
      (fun i => i.rule == "heading-order") = [] := by split <;> simp [mainIssue]
  have e8 : (if hasNav cs then ([] : List A11yIssue) else [navIssue]).filter
      (fun i => i.rule == "heading-order") = [] := by split <;> simp [navIssue]
  rcases hfs : firstSkip (headingLevels cs) with _ | ⟨a, b⟩
  · simp only [hfs]
    rw [e1, e2, e3, e5, e6, e7, e8]
    simp
  · simp only [hfs]
    rw [e1, e2, e3, e5, e6, e7, e8]
    simp [headingIssue]

/-- C4: for every html input the heading-order check scans the heading levels
in document order and reports exactly one warning issue at the first adjacent
pair that skips a level (everything before that pair is skip-free), reports
nothing when no adjacent pair skips, and deducts its penalty of 5 exactly
once, occurring once in the score formula. -/
theorem headingOrder_first_violation_only (url html : String) :
    ((checkA11y url html).issues.filter fun i => i.rule == "heading-order") =
      (match firstSkip (headingLevels html.data) with
       | some (a, b) => [headingIssue a b]
       | none => []) ∧
    (firstSkip (headingLevels html.data) = none ↔
      ∀ p ∈ (headingLevels html.data).zip (headingLevels html.data).tail,
        (p.2 : Int) - (p.1 : Int) ≤ 1) ∧
    (∀ a b, firstSkip (headingLevels html.data) = some (a, b) →
      (a : Int) + 1 < b ∧
      ∃ pre suf, (headingLevels html.data).zip (headingLevels html.data).tail =
          pre ++ (a, b) :: suf ∧ ∀ p ∈ pre, (p.2 : Int) - (p.1 : Int) ≤ 1) ∧
    (checkA11y url html).score = max 0 (100
      - (if htmlLangTest html.data then 0 else 10)
      - (if noAltImgs html.data > 0 then min 20 ((noAltImgs html.data : Int) * 5) else 0)
      - (if h1Count html.data > 1 then 5 else if h1Count html.data = 0 then 5 else 0)
      - (if (firstSkip (headingLevels html.data)).isSome then 5 else 0)
      - (if emptyLinks html.data > 0 then min 10 ((emptyLinks html.data : Int) * 3) else 0)
      - (if inputsCount html.data > labelsCount html.data then
          min 15 (((inputsCount html.data : Int) - (labelsCount html.data : Int)) * 5) else 0)
      - (if hasMain html.data then 0 else 3)
      - (if hasNav html.data then 0 else 2)) := by
  refine ⟨issuesOf_heading_filter html.data, firstSkip_none_iff _, ?_, rfl⟩
  intro a b h
  exact firstSkip_some _ a b h

/-- Witness for C4 at a concrete page: in `<h1></h1><h3></h3><h6></h6>` the
levels are `[1, 3, 6]`; the reported pair is the first skip `(1, 3)`, the
prefix before it is skip-free, and the later skip `3 → 6` is ignored. -/
theorem headingOrder_first_violation_only_witness :
    ((1 : Nat) : Int) + 1 < ((3 : Nat) : Int) ∧
    ∃ pre suf, (headingLevels "<h1></h1><h3></h3><h6></h6>".data).zip
        (headingLevels "<h1></h1><h3></h3><h6></h6>".data).tail =
        pre ++ ((1, 3) : Nat × Nat) :: suf ∧
      ∀ p ∈ pre, (p.2 : Int) - (p.1 : Int) ≤ 1 :=
  (headingOrder_first_violation_only "u" "<h1></h1><h3></h3><h6></h6>").2.2.1 1 3 (by decide)

/-- Helper: two permuted lists that are sorted by a relation antisymmetric on
their elements are equal. -/
theorem sorted_perm_eq {α : Type} {r : α → α → Prop} :
    ∀ {l₁ l₂ : List α}, l₁.Perm l₂ → l₁.Sorted r → l₂.Sorted r →
      (∀ a ∈ l₁, ∀ b ∈ l₁, r a b → r b a → a = b) → l₁ = l₂ := by
  intro l₁
  induction l₁ with
  | nil => intro l₂ hp _ _ _; exact (List.Perm.nil_eq hp).symm ▸ rfl
  | cons a t ih =>
    intro l₂ hp hs₁ hs₂ hanti
    cases l₂ with
    | nil => exact absurd hp.symm (by simp)
    | cons b u =>
      have hab : a = b := by
        have hbmem : b ∈ a :: t := hp.symm.subset (by simp)
        have hamem : a ∈ b :: u := hp.subset (by simp)
        rcases List.mem_cons.mp hbmem with rfl | hbt
        · rfl
        · rcases List.mem_cons.mp hamem with rfl | hau
          · rfl
          · have hrab : r a b := (List.sorted_cons.mp hs₁).1 b hbt
            have hrba : r b a := (List.sorted_cons.mp hs₂).1 a hau
            exact hanti a (by simp) b (by simp [hbt]) hrab hrba
      subst hab
      have hperm : t.Perm u := hp.cons_inv
      have := ih hperm (List.sorted_cons.mp hs₁).2 (List.sorted_cons.mp hs₂).2
        (fun x hx y hy => hanti x (by simp [hx]) y (by simp [hy]))
      rw [this]

/-- Helper: the lexicographic comparator is non-positive exactly on `≤`. -/
theorem lexCompare_nonpos_iff (a b : String) : lexCompare a b ≤ 0 ↔ a ≤ b := by
  rw [lexCompare]
  rcases lt_trichotomy a b with h | h | h
  · simp [h, le_of_lt h, not_lt_of_lt h]
  · subst h; simp
  · simp [h, not_lt_of_lt h, lt_irrefl, not_le_of_lt h]

/-- Helper: the comparator of each sort key is antisymmetric under negation. -/
theorem cmpKey_neg (k : SortKey) (a b : PageAudit) : cmpKey k a b = -cmpKey k b a := by
  cases k with
  | score => simp [cmpKey]
  | issues => simp [cmpKey]
  | url =>
    simp only [cmpKey, lexCompare]
    rcases lt_trichotomy a.url b.url with h | h | h
    · simp [h, not_lt_of_lt h]
    · simp [h, lt_irrefl]
    · simp [h, not_lt_of_lt h]

/-- Helper: the non-positive half of each comparator is transitive. -/
theorem cmpKey_trans (k : SortKey) {a b c : PageAudit}
    (h1 : cmpKey k a b ≤ 0) (h2 : cmpKey k b c ≤ 0) : cmpKey k a c ≤ 0 := by
  cases k with
  | score => simp [cmpKey] at *; omega
  | issues => simp [cmpKey] at *; omega
  | url =>
    simp only [cmpKey, lexCompare_nonpos_iff] at *
    exact le_trans h1 h2

/-- Counterexample to C2 as stated: two audits with equal scores keep their
input order under the stable sort in both directions, so the descending
order is not the reverse of the ascending order. -/
theorem sortedAudits_reverse_counterexample :
    sortedAudits .score .desc [⟨"a", 50, []⟩, ⟨"b", 50, []⟩] ≠
      (sortedAudits .score .asc [⟨"a", 50, []⟩, ⟨"b", 50, []⟩]).reverse := by decide

/-- C2 (amended): for a fixed collection whose sort-key values are pairwise
distinct (no ties), sorting ascending and sorting descending produce exactly
reversed lists of each other, for every sort key. -/
theorem sortedAudits_desc_eq_reverse_asc_of_distinct_keys (key : SortKey)
    (l : List PageAudit)
    (hnt : ∀ a ∈ l, ∀ b ∈ l, cmpKey key a b = 0 → a = b) :
    sortedAudits key .desc l = (sortedAudits key .asc l).reverse := by
  have hAsc : ∀ a b : PageAudit, jsCmp key .asc a b = cmpKey key a b := by
    intro a b; simp [jsCmp]
  have hDesc : ∀ a b : PageAudit, jsCmp key .desc a b = -cmpKey key a b := by
    intro a b; simp [jsCmp]
  haveI iTotA : IsTotal PageAudit (fun a b => jsCmp key .asc a b ≤ 0) := by
    constructor
    intro a b
    rw [hAsc, hAsc]
    have := cmpKey_neg key a b
    omega
  haveI iTransA : IsTrans PageAudit (fun a b => jsCmp key .asc a b ≤ 0) := by
    constructor
    intro a b c h1 h2
    rw [hAsc] at *
    exact cmpKey_trans key h1 h2
  haveI iTotD : IsTotal PageAudit (fun a b => jsCmp key .desc a b ≤ 0) := by
    constructor
    intro a b
    rw [hDesc, hDesc]
    have := cmpKey_neg key a b
    omega
  haveI iTransD : IsTrans PageAudit (fun a b => jsCmp key .desc a b ≤ 0) := by
    constructor
    intro a b c h1 h2
    rw [hDesc] at *
    have hba : cmpKey key b a ≤ 0 := by have := cmpKey_neg key a b; omega
    have hcb : cmpKey key c b ≤ 0 := by have := cmpKey_neg key b c; omega
    have := cmpKey_trans key hcb hba
    have := cmpKey_neg key a c
    omega
  have sAsc : (sortedAudits key .asc l).Sorted (fun a b => jsCmp key .asc a b ≤ 0) :=
    List.sorted_insertionSort _ l
  have sDesc : (sortedAudits key .desc l).Sorted (fun a b => jsCmp key .desc a b ≤ 0) :=
    List.sorted_insertionSort _ l
  have pAsc : (sortedAudits key .asc l).Perm l := List.perm_insertionSort _ l
  have pDesc : (sortedAudits key .desc l).Perm l := List.perm_insertionSort _ l
  have sRev : ((sortedAudits key .desc l).reverse).Sorted
      (fun a b => jsCmp key .asc a b ≤ 0) := by
    rw [List.Sorted, List.pairwise_reverse]
    refine sDesc.imp ?_
    intro a b h
    rw [hDesc] at h
    rw [hAsc]
    have := cmpKey_neg key a b
    omega
  have hperm : ((sortedAudits key .desc l).reverse).Perm (sortedAudits key .asc l) :=
    ((sortedAudits key .desc l).reverse_perm.trans pDesc).trans pAsc.symm
  have heq : (sortedAudits key .desc l).reverse = sortedAudits key .asc l := by
    refine sorted_perm_eq hperm sRev sAsc ?_
    intro a ha b hb hab hba
    have hal : a ∈ l := pDesc.subset ((sortedAudits key .desc l).reverse_perm.subset ha)
    have hbl : b ∈ l := pDesc.subset ((sortedAudits key .desc l).reverse_perm.subset hb)
    rw [hAsc] at hab hba
    have := cmpKey_neg key a b
    exact hnt a hal b hbl (by omega)
  rw [← heq, List.reverse_reverse]

/-- Witness for the amended C2 on a concrete tie-free collection. -/
theorem sortedAudits_desc_eq_reverse_asc_witness :
    sortedAudits .score .desc [⟨"a", 80, []⟩, ⟨"b", 90, []⟩] =
      (sortedAudits .score .asc [⟨"a", 80, []⟩, ⟨"b", 90, []⟩]).reverse :=
  sortedAudits_desc_eq_reverse_asc_of_distinct_keys .score
    [⟨"a", 80, []⟩, ⟨"b", 90, []⟩] (by decide)

/-- C6: the average score of an empty collection is 0 (no error, no division
by zero); over a non-empty collection it is the rounded arithmetic mean of
the scores; in particular the average of scores `[100, 50]` is 75. -/
theorem avgScore_spec :
    avgScore [] = 0 ∧
    (∀ l : List PageAudit, l ≠ [] →
      avgScore l = round ((((l.map fun a => a.score).sum : Int) : ℚ) / (l.length : ℚ))) ∧
    avgScore [⟨"a", 100, []⟩, ⟨"b", 50, []⟩] = 75 := by
  refine ⟨rfl, ?_, ?_⟩
  · intro l hl
    rw [avgScore, if_neg]
    simpa using hl
  · rw [avgScore]
    norm_num

/-- Witness for C6 at a concrete one-page collection. -/
theorem avgScore_spec_witness :
    avgScore [⟨"w", 80, []⟩] =
      round ((((([⟨"w", 80, []⟩] : List PageAudit).map fun a => a.score).sum : Int) : ℚ) /
        (([⟨"w", 80, []⟩] : List PageAudit).length : ℚ)) :=
  avgScore_spec.2.1 [⟨"w", 80, []⟩] (by simp)

/-- Helper: doubling the internal quotes doubles exactly the quote count. -/
theorem csvEscape_count (s : String) :
    (csvEscape s).data.count '"' = 2 * s.data.count '"' := by
  rw [csvEscape]
  show (s.data.flatMap fun c => if c = '"' then ['"', '"'] else [c]).count '"' = _
  induction s.data with
  | nil => simp
  | cons c t ih =>
    by_cases h : c = '"'
    · subst h; simp [ih, List.count_cons]; try omega
    · simp [h, ih, List.count_cons]; try omega

/-- C7: the CSV export has one data row per issue, a zero-issue page emits
exactly one row with empty rule/severity/suggestion and message `No issues`
(no page is omitted), and every cell is wrapped in double quotes with the
internal double quotes doubled. -/
theorem csvExport_rows_spec (l : List PageAudit) :
    (csvRows l).length = 1 + (l.map fun a => max 1 a.issues.length).sum ∧
    (∀ a ∈ l, a.issues = [] →
      [a.url, intToString a.score, "", "", "No issues", ""] ∈ csvRows l) ∧
    (∀ f : String, (csvField f).data.count '"' = 2 + 2 * f.data.count '"' ∧
      (csvField f).data.head? = some '"' ∧ (csvField f).data.getLast? = some '"') := by
  refine ⟨?_, ?_, ?_⟩
  · have hpt : ∀ a : PageAudit,
        ((if a.issues.isEmpty then [[a.url, intToString a.score, "", "", "No issues", ""]]
          else a.issues.map fun i => [a.url, intToString a.score, i.rule, sevString i.severity,
            i.message, i.suggestion]) : List (List String)).length = max 1 a.issues.length := by
      intro a
      split
      · rename_i h
        simp at h
        simp [h]
      · rename_i h
        simp at h
        have h1 : 1 ≤ a.issues.length := List.length_pos.mpr h
        simp
        omega
    rw [csvRows]
    simp only [List.length_cons, List.length_flatMap, Function.comp_def, hpt]
    omega
  · intro a ha hae
    rw [csvRows]
    refine List.mem_cons_of_mem _ ?_
    rw [List.mem_flatMap]
    exact ⟨a, ha, by simp [hae]⟩
  · intro f
    refine ⟨?_, ?_, ?_⟩
    · have hq : (csvField f).data = '"' :: ((csvEscape f).data ++ ['"']) := by
        simp [csvField, String.data_append]
      rw [hq]
      simp [List.count_cons, List.count_append, csvEscape_count f]
      omega
    · have hq : (csvField f).data = '"' :: ((csvEscape f).data ++ ['"']) := by
        simp [csvField, String.data_append]
      rw [hq]; rfl
    · have hq : (csvField f).data = ('"' :: (csvEscape f).data) ++ ['"'] := by
        simp [csvField, String.data_append]
      rw [hq, List.getLast?_concat]

/-- Witness for C7: the zero-issue row of a concrete one-page collection. -/
theorem csvExport_rows_spec_witness :
    [("u" : String), intToString 100, "", "", "No issues", ""] ∈
      csvRows [⟨"u", 100, []⟩] :=
  (csvExport_rows_spec [⟨"u", 100, []⟩]).2.1 ⟨"u", 100, []⟩ (by simp) rfl

/-- Counterexample to C8 as stated: a record that carries both fields, with
an empty-string url, is excluded from evaluation because the source filter
`p?.url && p?.content` tests JavaScript truthiness, and `""` is falsy. -/
theorem audits_truthiness_counterexample :
    (audits (some [⟨some "", some "<p>x</p>"⟩])).length = 0 ∧
    (⟨some "", some "<p>x</p>"⟩ : CrawlRecord).url.isSome = true ∧
    (⟨some "", some "<p>x</p>"⟩ : CrawlRecord).content.isSome = true := by
  refine ⟨?_, rfl, rfl⟩
  rw [show audits (some [⟨some "", some "<p>x</p>"⟩]) = [] from by rw [audits]; rfl]
  rfl

/-- C8 (amended): exactly those records whose `url` and `content` fields are
both present with non-empty (truthy) values are evaluated; all other records
— missing a field or carrying an empty string — are silently excluded before
evaluation and contribute nothing; a null collection yields no audits. -/
theorem audits_filter_spec (data : List CrawlRecord) :
    audits (some data) = data.filterMap (fun p =>
      match p.url, p.content with
      | some u, some c => if u ≠ "" ∧ c ≠ "" then some (checkA11y u c) else none
      | _, _ => none) ∧
    audits none = [] := by
  constructor
  · induction data with
    | nil => rfl
    | cons p t ih =>
      rw [audits] at ih ⊢
      simp only [Option.getD_some] at ih ⊢
      rcases p with ⟨pu, pc⟩
      rcases pu with _ | u
      · rw [List.filter_cons, List.filterMap_cons]
        simp only [show truthy none = false from rfl, Bool.false_and, Bool.false_eq_true,
          if_false]
        exact ih
      · rcases pc with _ | c
        · rw [List.filter_cons, List.filterMap_cons]
          simp only [show truthy none = false from rfl, Bool.and_false, Bool.false_eq_true,
            if_false]
          exact ih
        · by_cases hu : u = ""
          · subst hu
            rw [List.filter_cons, List.filterMap_cons]
            simp only [show truthy (some "") = false from rfl, Bool.false_and,
              Bool.false_eq_true, if_false]
            have hcond : ¬(("" : String) ≠ "" ∧ c ≠ "") := by simp
            simp only [hcond, if_false]
            exact ih
          · by_cases hc : c = ""
            · subst hc
              rw [List.filter_cons, List.filterMap_cons]
              simp only [show truthy (some "") = false from rfl, Bool.and_false,
                Bool.false_eq_true, if_false]
              have hcond : ¬(u ≠ "" ∧ ("" : String) ≠ "") := by simp
              simp only [hcond, if_false]
              exact ih
            · rw [List.filter_cons, List.filterMap_cons]
              have h1 : truthy (some u) = true := by simp [truthy, hu]
              have h2 : truthy (some c) = true := by simp [truthy, hc]
              simp only [h1, h2, Bool.and_self, if_true, List.map_cons, Option.getD_some]
              have h3 : (u ≠ "" ∧ c ≠ "") := ⟨hu, hc⟩
              rw [if_pos h3]
              simp [ih]
  · rfl

/-! ### Round trip of the structured export (C9) -/

theorem mk_data (s : String) : (⟨s.data⟩ : String) = s := rfl

theorem dropLit_append (p rest : List Char) : dropLit p (p ++ rest) = some rest := by
  induction p with
  | nil => rfl
  | cons c t ih => simp [dropLit, ih]

theorem hexVal_hexDigitChar : ∀ n < 16, hexVal (hexDigitChar n) = some n := by decide

theorem parseStrBody_escaped (cs : List Char) (rest : List Char) :
    parseStrBody (cs.flatMap escapeJsonChar ++ '"' :: rest) = some (cs, rest) := by
  induction cs with
  | nil => simp [parseStrBody.eq_def]
  | cons c t ih =>
    by_cases h1 : c = '"'
    · subst h1; simp [escapeJsonChar]; rw [parseStrBody.eq_def]; simp [ih]
    · by_cases h2 : c = '\\'
      · subst h2; simp [escapeJsonChar]; rw [parseStrBody.eq_def]; simp [ih]
      · by_cases h3 : c = Char.ofNat 8
        · subst h3; simp [escapeJsonChar]; rw [parseStrBody.eq_def]; simp [ih]
        · by_cases h4 : c = Char.ofNat 9
          · subst h4; simp [escapeJsonChar]; rw [parseStrBody.eq_def]; simp [ih]
          · by_cases h5 : c = Char.ofNat 10
            · subst h5; simp [escapeJsonChar]; rw [parseStrBody.eq_def]; simp [ih]
            · by_cases h6 : c = Char.ofNat 12
              · subst h6; simp [escapeJsonChar]; rw [parseStrBody.eq_def]; simp [ih]
              · by_cases h7 : c = Char.ofNat 13
                · subst h7; simp [escapeJsonChar]; rw [parseStrBody.eq_def]; simp [ih]
                · by_cases h8 : c.toNat < 32
                  · have hdiv : c.toNat / 16 < 16 := by omega
                    have hmod : c.toNat % 16 < 16 := by omega
                    have hc : Char.ofNat (c.toNat / 16 * 16 + c.toNat % 16) = c := by
                      rw [show c.toNat / 16 * 16 + c.toNat % 16 = c.toNat by omega]
                      exact Char.ofNat_toNat c
                    simp [escapeJsonChar, h1, h2, h3, h4, h5, h6, h7, h8]
                    rw [parseStrBody.eq_def]
                    simp [show hexVal '0' = some 0 from by decide,
                      hexVal_hexDigitChar _ hdiv, hexVal_hexDigitChar _ hmod, ih, hc]
                  · simp [escapeJsonChar, h1, h2, h3, h4, h5, h6, h7, h8]
                    rw [parseStrBody.eq_def]
                    simp [h1, h2, h8, ih]

theorem parseJString_quote (s : String) (rest : List Char) :
    parseJString (quoteJson s ++ rest) = some (s, rest) := by
  have h : quoteJson s ++ rest = '"' :: (s.data.flatMap escapeJsonChar ++ '"' :: rest) := by
    simp [quoteJson]
  rw [h]
  simp [parseJString, parseStrBody_escaped, mk_data]

theorem isDigitB_digit : ∀ m < 10, isDigitB (Char.ofNat ('0'.toNat + m)) = true := by decide

theorem digit_toNat : ∀ m < 10, (Char.ofNat ('0'.toNat + m)).toNat - '0'.toNat = m := by decide

theorem natDigitsAux_isDigit : ∀ fuel n, ∀ c ∈ natDigitsAux fuel n, isDigitB c = true := by
  intro fuel
  induction fuel with
  | zero => intro n c hc; cases n <;> simp [natDigitsAux] at hc
  | succ f ih =>
    intro n c hc
    cases n with
    | zero => simp [natDigitsAux] at hc
    | succ m =>
      rw [natDigitsAux] at hc
      rcases List.mem_append.mp hc with h | h
      · exact ih _ _ h
      · rcases List.mem_singleton.mp h with rfl
        exact isDigitB_digit _ (Nat.mod_lt _ (by omega))

theorem parseNatAux_digits (ds : List Char) (rest : List Char) (acc : Nat)
    (hd : ∀ c ∈ ds, isDigitB c = true) :
    parseNatAux (ds ++ rest) acc =
      parseNatAux rest (ds.foldl (fun a c => a * 10 + (c.toNat - '0'.toNat)) acc) := by
  induction ds generalizing acc with
  | nil => simp
  | cons c t ih =>
    have hc : isDigitB c = true := hd c (by simp)
    simp only [List.cons_append, parseNatAux, hc, if_pos, List.append_eq]
    rw [ih _ (fun x hx => hd x (by simp [hx]))]
    simp

theorem foldl_natDigitsAux : ∀ fuel n acc, n ≤ fuel →
    (natDigitsAux fuel n).foldl (fun a c => a * 10 + (c.toNat - '0'.toNat)) acc =
      acc * 10 ^ (natDigitsAux fuel n).length + n := by
  intro fuel
  induction fuel with
  | zero => intro n acc hn; interval_cases n; simp [natDigitsAux]
  | succ f ih =>
    intro n acc hn
    cases n with
    | zero => simp [natDigitsAux]
    | succ m =>
      rw [natDigitsAux]
      rw [List.foldl_append, ih ((m + 1) / 10) acc (by omega)]
      simp only [List.foldl_cons, List.foldl_nil, List.length_append, List.length_singleton]
      rw [digit_toNat _ (Nat.mod_lt _ (by omega))]
      rw [pow_succ]
      have := Nat.div_add_mod (m + 1) 10
      ring_nf
      omega

theorem parseNatAux_stop (rest : List Char) (acc : Nat)
    (h : ∀ c, rest.head? = some c → isDigitB c = false) :
    parseNatAux rest acc = (acc, rest) := by
  cases rest with
  | nil => rfl
  | cons c t => simp [parseNatAux, h c rfl]

theorem natToString_all_digits (n : Nat) : ∀ c ∈ (natToString n).data, isDigitB c = true := by
  intro c hc
  rw [natToString] at hc
  split at hc
  · simp at hc; subst hc; decide
  · exact natDigitsAux_isDigit _ _ _ hc

theorem natToString_parse (n : Nat) (rest : List Char)
    (h : ∀ c, rest.head? = some c → isDigitB c = false) :
    parseNatAux ((natToString n).data ++ rest) 0 = (n, rest) := by
  rw [parseNatAux_digits _ _ _ (natToString_all_digits n)]
  rw [natToString]
  split
  · subst n
    simp [show ("0" : String).data.foldl (fun a c => a * 10 + (c.toNat - '0'.toNat)) 0 = 0 from by decide]
    exact parseNatAux_stop rest 0 h
  · show parseNatAux rest ((natDigitsAux n n).foldl _ 0) = _
    rw [foldl_natDigitsAux n n 0 le_rfl]
    simpa using parseNatAux_stop rest n h

theorem natToString_ne_nil (n : Nat) : (natToString n).data ≠ [] := by
  rw [natToString]
  split
  · decide
  · show (natDigitsAux n n) ≠ []
    cases n with
    | zero => omega
    | succ m => rw [natDigitsAux]; simp

theorem natToString_head_digit (n : Nat) :
    ∀ c, (natToString n).data.head? = some c → isDigitB c = true := by
  intro c hc
  have := natToString_all_digits n c
  cases h : (natToString n).data with
  | nil => exact absurd h (natToString_ne_nil n)
  | cons d t =>
    rw [h] at hc
    simp at hc
    subst hc
    exact this (by rw [h]; simp)

theorem parseJInt_intToString (n : Int) (rest : List Char)
    (h : ∀ c, rest.head? = some c → isDigitB c = false) :
    parseJInt ((intToString n).data ++ rest) = some (n, rest) := by
  rw [intToString]
  split
  · rename_i hneg
    rw [String.data_append]
    have hne := natToString_ne_nil n.natAbs
    cases hd : (natToString n.natAbs).data with
    | nil => exact absurd hd hne
    | cons d t =>
      have hdig : isDigitB d = true := natToString_head_digit n.natAbs d (by rw [hd]; simp)
      have hparse := natToString_parse n.natAbs rest h
      rw [hd] at hparse
      show parseJInt ('-' :: (d :: t ++ rest)) = some (n, rest)
      rw [parseJInt.eq_def]
      simp only [List.cons_append] at hparse ⊢
      simp [hdig, hparse]
      rw [abs_of_neg hneg]
      ring
  · rename_i hpos
    have hne := natToString_ne_nil n.natAbs
    cases hd : (natToString n.natAbs).data with
    | nil => exact absurd hd hne
    | cons d t =>
      have hdig : isDigitB d = true := natToString_head_digit n.natAbs d (by rw [hd]; simp)
      have hdne : ¬d = '-' := by
        intro hh
        subst hh
        exact absurd hdig (by decide)
      have hparse := natToString_parse n.natAbs rest h
      rw [hd] at hparse
      rw [parseJInt.eq_def]
      simp only [List.cons_append] at hparse ⊢
      simp [hdne, hdig, hparse]
      omega

theorem parseJString_quoteN (s : String) (rest : List Char) :
    parseJString ('"' :: (s.data.flatMap escapeJsonChar ++ '"' :: rest)) = some (s, rest) := by
  simp [parseJString, parseStrBody_escaped, mk_data]

theorem sevOfString_sevString (v : Severity) : sevOfString (sevString v) = some v := by
  cases v <;> rfl

theorem parseJInt_comma (n : Int) (rest : List Char) :
    parseJInt ((intToString n).data ++ ',' :: rest) = some (n, ',' :: rest) := by
  refine parseJInt_intToString n (',' :: rest) ?_
  intro c hc
  simp at hc
  subst hc
  decide

set_option maxHeartbeats 1000000 in
theorem parseIssue_emit (i : A11yIssue) (rest : List Char) :
    parseIssue ('\n' :: (emitIssue i ++ rest)) = some (i, rest) := by
  simp [parseIssue, emitIssue, parseFieldName, expectC, skipWs, dropLit,
    parseJString_quoteN, sevOfString_sevString, List.append_assoc]

theorem parseIssuesTail_emit :
    ∀ (fuel : Nat) (l : List A11yIssue) (rest : List Char), l ≠ [] →
      l.length ≤ fuel →
      parseIssuesTail fuel ('\n' :: (emitIssuesItems l ++ ("\n    ]".data ++ rest))) =
        some (l, rest) := by
  intro fuel
  induction fuel with
  | zero =>
    intro l rest hne hlen
    simp at hlen
    exact absurd hlen hne
  | succ f ih =>
    intro l rest hne hlen
    cases l with
    | nil => exact absurd rfl hne
    | cons i t =>
      cases t with
      | nil =>
        rw [parseIssuesTail]
        rw [show emitIssuesItems [i] = emitIssue i from rfl]
        rw [parseIssue_emit]
        simp [skipWs]
      | cons j u =>
        rw [parseIssuesTail]
        have he : emitIssuesItems (i :: j :: u) =
            emitIssue i ++ (",\n".data ++ emitIssuesItems (j :: u)) := by
          rw [emitIssuesItems] <;> simp
        simp only [he, show (",\n" : String).data = [',', '\n'] from rfl,
          List.append_assoc, List.cons_append, List.nil_append]
        rw [parseIssue_emit]
        simp only [Option.bind_eq_bind, Option.some_bind]
        have hih := ih (j :: u) rest (by simp) (by simpa using Nat.le_of_succ_le_succ hlen)
        simp only [show ("\n    ]" : String).data = ['\n', ' ', ' ', ' ', ' ', ']'] from rfl,
          List.cons_append, List.nil_append, List.append_assoc] at hih
        simp [hih, skipWs]

theorem parseIssuesArr_emit (fuel : Nat) (l : List A11yIssue) (rest : List Char)
    (hlen : l.length ≤ fuel) :
    parseIssuesArr fuel (emitIssues l ++ rest) = some (l, rest) := by
  cases l with
  | nil => simp [emitIssues, parseIssuesArr, expectC, skipWs]
  | cons i t =>
    have hY : ∃ Y, emitIssuesItems (i :: t) = emitIssue i ++ Y := by
      cases t with
      | nil => exact ⟨[], by simp [emitIssuesItems]⟩
      | cons j u => exact ⟨",\n".data ++ emitIssuesItems (j :: u), by rw [emitIssuesItems] <;> simp⟩
    obtain ⟨Y, hYe⟩ := hY
    have hih := parseIssuesTail_emit fuel (i :: t) rest (by simp) hlen
    rw [show emitIssues (i :: t) = "[\n".data ++ (emitIssuesItems (i :: t) ++ "\n    ]".data)
      from by rw [emitIssues]; simp]
    rw [parseIssuesArr]
    simp only [List.append_assoc, List.cons_append, List.nil_append,
      show ("[\n" : String).data = ['[', '\n'] from rfl]
    simp [expectC, skipWs]
    rw [hYe] at hih ⊢
    simp only [emitIssue, List.append_assoc, List.cons_append, List.nil_append] at hih ⊢
    simpa [skipWs] using hih

theorem digit_not_ws {c : Char} (h : isDigitB c = true) :
    (c == ' ' || c == '\n' || c == '\t' || c == '\r') = false := by
  have h1 : c ≠ ' ' := by intro hh; subst hh; simp [isDigitB] at h
  have h2 : c ≠ '\n' := by intro hh; subst hh; simp [isDigitB] at h
  have h3 : c ≠ '\t' := by intro hh; subst hh; simp [isDigitB] at h
  have h4 : c ≠ '\r' := by intro hh; subst hh; simp [isDigitB] at h
  simp [h1, h2, h3, h4]

theorem skipWs_intToString (n : Int) (X : List Char) :
    skipWs ((intToString n).data ++ X) = (intToString n).data ++ X := by
  rw [intToString]
  split
  · rw [String.data_append]
    rw [show ("-" : String).data = ['-'] from rfl]
    simp [skipWs]
  · cases hd : (natToString n.natAbs).data with
    | nil => exact absurd hd (natToString_ne_nil _)
    | cons d t =>
      have hdig : isDigitB d = true := natToString_head_digit n.natAbs d (by rw [hd]; simp)
      simp [skipWs, digit_not_ws hdig]

theorem skipWs_emitIssues (l : List A11yIssue) (X : List Char) :
    skipWs (emitIssues l ++ X) = emitIssues l ++ X := by
  rw [emitIssues]
  split <;> simp [skipWs]

set_option maxHeartbeats 1000000 in
theorem parsePage_emit (fuel : Nat) (a : PageAudit) (rest : List Char)
    (hlen : a.issues.length ≤ fuel) :
    parsePage fuel ('\n' :: (emitPage a ++ rest)) = some (a, rest) := by
  have harr := fun X => parseIssuesArr_emit fuel a.issues X hlen
  simp [parsePage, emitPage, parseFieldName, expectC, skipWs, dropLit,
    parseJString_quoteN, parseJInt_comma, skipWs_intToString, skipWs_emitIssues, harr,
    List.append_assoc]

theorem parsePagesTail_emit :
    ∀ (fuel : Nat) (l : List PageAudit) (rest : List Char), l ≠ [] →
      l.length + (l.map fun a => a.issues.length).sum ≤ fuel →
      parsePagesTail fuel ('\n' :: (emitPagesItems l ++ ("\n]".data ++ rest))) =
        some (l, rest) := by
  intro fuel
  induction fuel with
  | zero =>
    intro l rest hne hlen
    simp at hlen
    exact absurd hlen.1 hne
  | succ f ih =>
    intro l rest hne hlen
    cases l with
    | nil => exact absurd rfl hne
    | cons a t =>
      simp only [List.map_cons, List.sum_cons, List.length_cons] at hlen
      cases t with
      | nil =>
        rw [parsePagesTail]
        rw [show emitPagesItems [a] = emitPage a from rfl]
        rw [parsePage_emit (f + 1) a _ (by omega)]
        simp [skipWs]
      | cons b u =>
        rw [parsePagesTail]
        have he : emitPagesItems (a :: b :: u) =
            emitPage a ++ (",\n".data ++ emitPagesItems (b :: u)) := by
          rw [emitPagesItems] <;> simp
        simp only [he, show (",\n" : String).data = [',', '\n'] from rfl,
          List.append_assoc, List.cons_append, List.nil_append]
        rw [parsePage_emit (f + 1) a _ (by omega)]
        simp only [Option.bind_eq_bind, Option.some_bind]
        have hih := ih (b :: u) rest (by simp) (by omega)
        simp only [show ("\n]" : String).data = ['\n', ']'] from rfl,
          List.cons_append, List.nil_append, List.append_assoc] at hih
        simp [hih, skipWs]

theorem emitIssue_len (i : A11yIssue) : 1 ≤ (emitIssue i).length := by
  simp [emitIssue]

theorem emitIssuesItems_len (l : List A11yIssue) : l.length ≤ (emitIssuesItems l).length := by
  induction l with
  | nil => simp [emitIssuesItems]
  | cons i t ih =>
    cases t with
    | nil => simpa [emitIssuesItems] using emitIssue_len i
    | cons j u =>
      rw [show emitIssuesItems (i :: j :: u) =
        emitIssue i ++ (",\n".data ++ emitIssuesItems (j :: u)) from by
          rw [emitIssuesItems] <;> simp]
      have h1 := emitIssue_len i
      simp only [List.length_append, List.length_cons] at ih ⊢
      simp at ih ⊢
      omega

theorem emitIssues_len (l : List A11yIssue) : l.length ≤ (emitIssues l).length := by
  rw [emitIssues]
  split
  · rename_i h
    simp at h
    simp [h]
  · have := emitIssuesItems_len l
    simp only [List.length_append]
    omega

theorem emitPage_len (a : PageAudit) : a.issues.length + 1 ≤ (emitPage a).length := by
  have := emitIssues_len a.issues
  simp only [emitPage, List.length_append]
  simp
  omega

theorem emitPagesItems_len (l : List PageAudit) :
    l.length + (l.map fun a => a.issues.length).sum ≤ (emitPagesItems l).length := by
  induction l with
  | nil => simp [emitPagesItems]
  | cons a t ih =>
    cases t with
    | nil =>
      have := emitPage_len a
      simp only [emitPagesItems, List.map_cons, List.sum_cons, List.length_cons]
      simp
      omega
    | cons b u =>
      rw [show emitPagesItems (a :: b :: u) =
        emitPage a ++ (",\n".data ++ emitPagesItems (b :: u)) from by
          rw [emitPagesItems] <;> simp]
      have h1 := emitPage_len a
      simp only [List.map_cons, List.sum_cons, List.length_cons, List.length_append] at ih ⊢
      simp at ih ⊢
      omega

theorem parsePagesTail_emit_n (fuel : Nat) (l : List PageAudit) (hne : l ≠ [])
    (hlen : l.length + (l.map fun a => a.issues.length).sum ≤ fuel) :
    parsePagesTail fuel ('\n' :: (emitPagesItems l ++ ['\n', ']'])) = some (l, []) := by
  have h := parsePagesTail_emit fuel l [] hne hlen
  simpa using h

/-- C9: serializing any audit collection to the structured (JSON) export
format and parsing the resulting string back yields the original `PageAudit`
array, field for field. -/
theorem parseAudits_jsonExport (l : List PageAudit) :
    parseAudits (jsonExport l) = some l := by
  cases l with
  | nil => decide
  | cons a t =>
    obtain ⟨Y, hY⟩ : ∃ Y, emitPagesItems (a :: t) = emitPage a ++ Y := by
      cases t with
      | nil => exact ⟨[], by simp [emitPagesItems]⟩
      | cons b u => exact ⟨",\n".data ++ emitPagesItems (b :: u), by rw [emitPagesItems] <;> simp⟩
    have hhead : ∀ X : List Char,
        (skipWs ('\n' :: (emitPagesItems (a :: t) ++ X))).head? = some '\x7b' := by
      intro X
      rw [hY]
      simp [emitPage, skipWs, List.append_assoc]
    rw [show jsonExport (a :: t) = ⟨"[\n".data ++ emitPagesItems (a :: t) ++ "\n]".data⟩ from by
      rw [jsonExport]; simp]
    simp only [parseAudits, show ("[\n" : String).data = ['[', '\n'] from rfl,
      show ("\n]" : String).data = ['\n', ']'] from rfl, List.append_assoc, List.cons_append,
      List.nil_append]
    rw [show expectC '[' ('[' :: '\n' :: (emitPagesItems (a :: t) ++ ['\n', ']'])) =
      some ('\n' :: (emitPagesItems (a :: t) ++ ['\n', ']'])) from by simp [expectC, skipWs]]
    simp only [Option.bind_eq_bind, Option.some_bind]
    split
    · rename_i l2 rest2 heq
      split at heq
      · rename_i rest3 hs
        have hh := hhead ['\n', ']']
        rw [hs] at hh
        simp at hh
      · rw [parsePagesTail_emit_n _ (a :: t) (by simp) ?bnd] at heq
        case bnd =>
          have hl := emitPagesItems_len (a :: t)
          simp only [List.length_append, List.length_cons] at hl ⊢
          omega
        simp only [Option.some.injEq, Prod.mk.injEq] at heq
        obtain ⟨h2, h3⟩ := heq
        subst h2
        subst h3
        simp [skipWs]
    · rename_i heq
      split at heq
      · simp at heq
      · rw [parsePagesTail_emit_n _ (a :: t) (by simp) ?bnd2] at heq
        case bnd2 =>
          have hl := emitPagesItems_len (a :: t)
          simp only [List.length_append, List.length_cons] at hl ⊢
          omega
        simp at heq

end A11y
